import Mathlib

/-!
Verification development for the `cloud-node.js` repository: a streaming
CSV-to-MongoDB seeding script (`scripts/seed-emissions.js`) and a Fastify
query route with cursor pagination (`routes/emissions.routes.js`).

The JavaScript code is shallowly embedded:
* machine floats are modelled by `JSNum` (NaN, signed infinity, or an exact
  rational); none of the verified properties depend on binary64 rounding;
* `Date` values are modelled as integer milliseconds since the Unix epoch;
* Mongo `ObjectId` values are modelled by their 12-byte big-endian numeric
  value (a `Nat`), which realises the driver byte-wise comparison order;
* fallible JavaScript code (functions that `throw`) returns `Except`.
-/

namespace CloudNode

/-- Decidable equality for `Except`, used to let witnesses evaluate by `decide`. -/
instance {ε α : Type} [DecidableEq ε] [DecidableEq α] : DecidableEq (Except ε α) := fun a b =>
  match a, b with
  | .ok x, .ok y => if h : x = y then .isTrue (by simp [h]) else .isFalse (by simp [h])
  | .error x, .error y => if h : x = y then .isTrue (by simp [h]) else .isFalse (by simp [h])
  | .ok _, .error _ => .isFalse (by simp)
  | .error _, .ok _ => .isFalse (by simp)

/-- Boolean success test for `Except` results. -/
def isOkE {ε α : Type} : Except ε α → Bool
  | .ok _ => true
  | .error _ => false

/-- A JavaScript number as far as the seeding script observes it: `NaN`,
a signed infinity, or a finite value (modelled as an exact rational;
binary64 rounding is irrelevant to every claim below). -/
inductive JSNum where
  | nan : JSNum
  | inf (neg : Bool) : JSNum
  | val (q : ℚ) : JSNum
deriving DecidableEq, Repr

/-- ASCII whitespace characters stripped by the JavaScript string-to-number
conversions (the ECMAScript list restricted to ASCII, which is all the CSV
pipeline can produce). -/
def jsWhitespace (c : Char) : Bool :=
  c == ' ' || c == '\t' || c == '\n' || c == '\r' || c == '\x0b' || c == '\x0c'

/-- Numeric value of a run of decimal digit characters. -/
def digitsToNat (ds : List Char) : Nat :=
  ds.foldl (fun acc c => acc * 10 + (c.toNat - 48)) 0

/-- Parse the optional exponent suffix of an ECMAScript decimal literal and
apply it to the mantissa `m`; the whole remaining input must be consumed. -/
def parseExpPart (cs : List Char) (m : ℚ) : Option ℚ :=
  match cs with
  | [] => some m
  | c :: r =>
    if c == 'e' || c == 'E' then
      let sgnRest : Int × List Char :=
        match r with
        | '+' :: t => (1, t)
        | '-' :: t => (-1, t)
        | t => (1, t)
      let ds := sgnRest.2.takeWhile Char.isDigit
      let rest := sgnRest.2.dropWhile Char.isDigit
      if ds.isEmpty || !rest.isEmpty then none
      else some (m * (10 : ℚ) ^ (sgnRest.1 * (digitsToNat ds : Int)))
    else none

/-- Parse an unsigned ECMAScript decimal literal (`digits`, `digits.digits`,
`.digits`, optional exponent); the whole input must be consumed. -/
def parseDecimal (cs : List Char) : Option ℚ :=
  let ip := cs.takeWhile Char.isDigit
  let r1 := cs.dropWhile Char.isDigit
  match r1 with
  | '.' :: r2 =>
    let fp := r2.takeWhile Char.isDigit
    let r3 := r2.dropWhile Char.isDigit
    if ip.isEmpty && fp.isEmpty then none
    else parseExpPart r3 ((digitsToNat ip : ℚ) + (digitsToNat fp : ℚ) / (10 : ℚ) ^ fp.length)
  | _ =>
    if ip.isEmpty then none
    else parseExpPart r1 (digitsToNat ip)

/-- The ECMAScript `Number(string)` conversion (`StringToNumber`): strip
whitespace, an empty remainder is `0`, otherwise an optionally signed
`Infinity` or decimal literal; anything else is `NaN`.  The binary, octal
and hexadecimal literal forms are not modelled (no claim exercises them,
and the CSV fixture contains only decimal fields). -/
def jsStringToNumber (s : String) : JSNum :=
  let cs := ((s.data.dropWhile jsWhitespace).reverse.dropWhile jsWhitespace).reverse
  match cs with
  | [] => .val 0
  | _ =>
    let negBody : Bool × List Char :=
      match cs with
      | '+' :: t => (false, t)
      | '-' :: t => (true, t)
      | t => (false, t)
    if negBody.2 == "Infinity".data then .inf negBody.1
    else
      match parseDecimal negBody.2 with
      | some q => .val (if negBody.1 then -q else q)
      | none => .nan

/-- The ECMAScript `parseInt(string, 10)`: strip leading whitespace, read an
optional sign and then the longest prefix of decimal digits, ignoring any
trailing characters; the result is `none` (JavaScript `NaN`) exactly when no
leading digit exists. -/
def jsParseInt10 (s : String) : Option Int :=
  let cs := s.data.dropWhile jsWhitespace
  let negBody : Bool × List Char :=
    match cs with
    | '+' :: t => (false, t)
    | '-' :: t => (true, t)
    | t => (false, t)
  let ds := negBody.2.takeWhile Char.isDigit
  if ds.isEmpty then none
  else some (if negBody.1 then -(digitsToNat ds : Int) else (digitsToNat ds : Int))

/-- Gregorian leap-year test. -/
def isLeapYear (y : Int) : Bool :=
  y % 4 == 0 && (y % 100 != 0 || y % 400 == 0)

/-- Number of days in month `m` (1-based) of year `y`. -/
def daysInMonth (y : Int) (m : Nat) : Nat :=
  if m == 2 then (if isLeapYear y then 29 else 28)
  else if m == 4 || m == 6 || m == 9 || m == 11 then 30
  else 31

/-- Days from the Unix epoch to the civil date `y-m-d` (proleptic Gregorian;
the standard days-from-civil algorithm). -/
def daysFromCivil (y : Int) (m d : Nat) : Int :=
  let yy : Int := if m ≤ 2 then y - 1 else y
  let era : Int := Int.fdiv yy 400
  let yoe : Int := yy - era * 400
  let mp : Nat := (m + 9) % 12
  let doy : Nat := (153 * mp + 2) / 5 + d - 1
  let doe : Int := yoe * 365 + yoe / 4 - yoe / 100 + (doy : Int)
  era * 146097 + doe - 719468

/-- Read exactly `n` decimal digits from the front of `cs`. -/
def takeDigitsN (n : Nat) (cs : List Char) : Option (Nat × List Char) :=
  let ds := cs.take n
  if ds.length == n && ds.all Char.isDigit then some (digitsToNat ds, cs.drop n) else none

/-- Consume one expected character. -/
def expectChar (c : Char) : List Char → Option (List Char)
  | x :: r => if x == c then some r else none
  | [] => none

/-- The ECMAScript `new Date(string)` parse, restricted to the Date Time
String Format actually flowing through this system (`YYYY-MM-DD`, optionally
followed by `THH:MM`, `:SS`, `.sss` and a trailing `Z`): the result is
milliseconds since the Unix epoch, or `none` for an invalid date.  The host
clock is modelled as UTC, and host-specific fallback formats are treated as
unparseable (no claim depends on them). -/
def jsParseDate (s : String) : Option Int := do
  let cs := s.data
  let (y, r1) ← takeDigitsN 4 cs
  let r2 ← expectChar '-' r1
  let (mo, r3) ← takeDigitsN 2 r2
  let r4 ← expectChar '-' r3
  let (d, r5) ← takeDigitsN 2 r4
  if mo < 1 || 12 < mo || d < 1 || daysInMonth (y : Int) mo < d then none
  else
    let dayMs : Int := daysFromCivil (y : Int) mo d * 86400000
    match r5 with
    | [] => some dayMs
    | 'T' :: r6 => do
      let (h, r7) ← takeDigitsN 2 r6
      let r8 ← expectChar ':' r7
      let (mi, r9) ← takeDigitsN 2 r8
      let (sec, ms, r10) ←
        (match r9 with
         | ':' :: ra => do
           let (sec, rb) ← takeDigitsN 2 ra
           match rb with
           | '.' :: rc => do
             let (ms, rd) ← takeDigitsN 3 rc
             pure (sec, ms, rd)
           | _ => pure (sec, 0, rb)
         | _ => pure (0, 0, r9) : Option (Nat × Nat × List Char))
      let r11 ←
        (match r10 with
         | ['Z'] => some []
         | [] => some []
         | _ => none : Option (List Char))
      if 23 < h || 59 < mi || 59 < sec || !r11.isEmpty then none
      else some (dayMs + (((h * 3600 + mi * 60 + sec) * 1000 + ms : Nat) : Int))
    | _ => none

/-! ### `scripts/seed-emissions.js`: row normalisation -/

/-- The `toNumber` helper of the seeding script: `Number(v)` followed by a
`Number.isNaN` check; note the check rejects only `NaN`, not infinities. -/
def toNumber (v : String) : Except String JSNum :=
  match jsStringToNumber v with
  | .nan => .error ("Invalid number: " ++ v)
  | n => .ok n

/-- The `toInt` helper of the seeding script: `Number.parseInt(v, 10)`
followed by a `Number.isNaN` check. -/
def toInt (v : String) : Except String Int :=
  match jsParseInt10 v with
  | none => .error ("Invalid int: " ++ v)
  | some n => .ok n

/-- The `toDate` helper of the seeding script: `new Date(v)` followed by an
`isNaN(d.getTime())` check. -/
def toDate (v : String) : Except String Int :=
  match jsParseDate v with
  | none => .error ("Invalid timestamp: " ++ v)
  | some t => .ok t

/-- One raw CSV row as delivered by the parser (`columns: true` maps each
row to column-name → string). -/
structure RawRow where
  id : String
  timestamp : String
  siteId : String
  siteName : String
  equipmentId : String
  type : String
  mass : String
  unit : String
  scanDuration : String
  confidence : String
  numDetections : String
  detections : String
deriving DecidableEq, Repr

/-- A normalised emission document as built by `mapRow`.  The `detections`
payload is kept as the raw string: `safeJsonParse` never fails (malformed
input yields `[]`), so it cannot influence row acceptance, and no claim
inspects the decoded value. -/
structure EmissionDoc where
  id : String
  timestamp : Int
  siteId : String
  siteName : String
  equipmentId : String
  type : String
  mass : JSNum
  unit : String
  scanDuration : Int
  confidence : JSNum
  numDetections : Int
  detections : String
deriving DecidableEq, Repr

/-- The `mapRow` normaliser of the seeding script; conversions are performed
in the field order of the JavaScript object literal, and the first failing
conversion rejects the row. -/
def mapRow (row : RawRow) : Except String EmissionDoc := do
  let ts ← toDate row.timestamp
  let m ← toNumber row.mass
  let sd ← toInt row.scanDuration
  let conf ← toNumber row.confidence
  let nd ← toInt row.numDetections
  pure { id := row.id, timestamp := ts, siteId := row.siteId, siteName := row.siteName,
         equipmentId := row.equipmentId, type := row.type, mass := m, unit := row.unit,
         scanDuration := sd, confidence := conf, numDetections := nd,
         detections := row.detections }

/-! ### `scripts/seed-emissions.js`: batch flushing and the ingestion loop -/

/-- Outcome of one `insertMany(docs, ordered:false)` bulk write, as the
script observes it: plain success with an inserted count, or a thrown error
that either carries a `writeErrors` array (one error code per failed
document, together with the count of documents that were still inserted) or
does not (connectivity/schema failures). -/
inductive BulkResult where
  | success (insertedCount : Nat)
  | failure (writeErrors : Option (List Nat)) (nInserted : Nat)
deriving DecidableEq, Repr

/-- The running `inserted` and `skipped` counters of the script. -/
structure Counters where
  inserted : Nat
  skipped : Nat
deriving DecidableEq, Repr

/-- The `flushBatch` error handler of the seeding script, applied to the
batch `docs`, the store outcome `res` for that batch and the counters so
far.  An error carrying `writeErrors` is absorbed: the duplicate-key
sub-errors (code 11000) are added to `skipped` and the partial-success
count to `inserted`; an error without `writeErrors` is rethrown. -/
def flushBatch (docs : List EmissionDoc) (res : BulkResult) (c : Counters) :
    Except String Counters :=
  if docs.isEmpty then .ok c
  else
    match res with
    | .success n => .ok { c with inserted := c.inserted + n }
    | .failure (some codes) nIns =>
      .ok { inserted := c.inserted + nIns,
            skipped := c.skipped + (codes.filter (fun e => e == 11000)).length }
    | .failure none _ => .error "non-bulk write error: rethrown, run aborted"

/-- In-flight ingestion state: the current batch buffer plus the counters. -/
structure IngestState where
  batch : List EmissionDoc
  inserted : Nat
  skipped : Nat
deriving DecidableEq, Repr

/-- A store model for ingestion: the bulk-write outcome the store produces
for each flushed batch. -/
def StoreOracle : Type := List EmissionDoc → BulkResult

/-- Flush the buffered batch (a no-op on an empty buffer, mirroring the
early return of `flushBatch`). -/
def flushState (oracle : StoreOracle) (st : IngestState) : Except String IngestState :=
  if st.batch.isEmpty then .ok st
  else
    match flushBatch st.batch (oracle st.batch) ⟨st.inserted, st.skipped⟩ with
    | .error e => .error e
    | .ok c => .ok ⟨[], c.inserted, c.skipped⟩

/-- The parser `data` handler: normalise the row (a failure increments
`skipped` and continues), buffer it, and flush once the batch reaches `B`
(the parser is paused while the flush is awaited). -/
def onRow (B : Nat) (oracle : StoreOracle) (st : IngestState) (row : RawRow) :
    Except String IngestState :=
  match mapRow row with
  | .error _ => .ok { st with skipped := st.skipped + 1 }
  | .ok doc =>
    if B ≤ (st.batch ++ [doc]).length then
      flushState oracle { st with batch := st.batch ++ [doc] }
    else .ok { st with batch := st.batch ++ [doc] }

/-- Process the row stream in order, then flush the remainder (the final
`await flushBatch()` of `main`); a fatal flush error aborts the run. -/
def ingestRows (B : Nat) (oracle : StoreOracle) (st : IngestState) :
    List RawRow → Except String IngestState
  | [] => flushState oracle st
  | row :: rest =>
    match onRow B oracle st row with
    | .error e => .error e
    | .ok st2 => ingestRows B oracle st2 rest

/-- A whole ingestion run over `rows` with batch size `B`, returning the
final counters (the `DONE. inserted=... skipped=...` summary). -/
def runIngest (B : Nat) (oracle : StoreOracle) (rows : List RawRow) : Except String Counters :=
  match ingestRows B oracle ⟨[], 0, 0⟩ rows with
  | .error e => .error e
  | .ok fin => .ok ⟨fin.inserted, fin.skipped⟩

/-! ### `routes/emissions.routes.js`: the `GET /emissions` query route

The store is modelled as a list of documents carrying exactly the fields
the route reads (filters, sort keys and projection); `_id` is the
`ObjectId` modelled by its numeric value. -/

/-- A stored emission document, restricted to the fields the query route
touches. -/
structure Doc where
  _id : Nat
  timestamp : Int
  siteId : String
  equipmentId : String
  confidence : ℚ
  detections : String
deriving DecidableEq, Repr

/-- The pagination sort key of a document: `(timestamp, _id)`. -/
def Doc.key (d : Doc) : Int × Nat := (d.timestamp, d._id)

/-- The `$or` cursor predicate the route adds to the filter document:
`timestamp < ts OR (timestamp == ts AND _id < oid)`. -/
def cursorPred (ts : Int) (oid : Nat) (d : Doc) : Bool :=
  decide (d.timestamp < ts) || (decide (d.timestamp = ts) && decide (d._id < oid))

/-- The base filter document built by the route: scope equality, the
`confidence: (dollar)gte` floor, and the optional `timestamp` range. -/
structure BaseFilter where
  siteId : String
  equipmentId : String
  confidenceMin : ℚ
  tsGte : Option Int
  tsLte : Option Int
deriving DecidableEq, Repr

/-- The full filter document: the base filter plus the optional cursor
disjunction. -/
structure EmFilter where
  base : BaseFilter
  cursor : Option (Int × Nat)
deriving DecidableEq, Repr

/-- Mongo evaluation of the base filter on one document. -/
def matchesBase (f : BaseFilter) (d : Doc) : Bool :=
  d.siteId == f.siteId && d.equipmentId == f.equipmentId &&
  decide (f.confidenceMin ≤ d.confidence) &&
  (match f.tsGte with | none => true | some a => decide (a ≤ d.timestamp)) &&
  (match f.tsLte with | none => true | some b => decide (d.timestamp ≤ b))

/-- Evaluation of the optional cursor clause. -/
def afterCursor (c : Option (Int × Nat)) (d : Doc) : Bool :=
  match c with
  | none => true
  | some (ts, oid) => cursorPred ts oid d

/-- Mongo evaluation of the full filter document on one document. -/
def matchesFilter (f : EmFilter) (d : Doc) : Bool :=
  matchesBase f.base d && afterCursor f.cursor d

/-- The sort relation realising `sort(timestamp: -1, _id: -1)`:
`a` precedes `b` when `a` is strictly later, or equal in time with the
larger `_id` (ties beyond the full key are irrelevant because `_id` is
unique in a Mongo collection). -/
def sortRel (a b : Doc) : Prop :=
  b.timestamp < a.timestamp ∨ (b.timestamp = a.timestamp ∧ b._id ≤ a._id)

instance : DecidableRel sortRel := fun a b =>
  if h1 : b.timestamp < a.timestamp then .isTrue (Or.inl h1)
  else if h2 : b.timestamp = a.timestamp ∧ b._id ≤ a._id then .isTrue (Or.inr h2)
  else .isFalse (by intro hc; cases hc with | inl h => exact h1 h | inr h => exact h2 h)

instance : IsTotal Doc sortRel := ⟨by intro a b; unfold sortRel; omega⟩

instance : IsTrans Doc sortRel := ⟨by intro a b c; unfold sortRel; omega⟩

/-- The store delivering matching documents in `(timestamp desc, _id desc)`
order: sort, then filter (for a total sort order this equals any
order-respecting query plan). -/
def sortDocs (l : List Doc) : List Doc := List.insertionSort sortRel l

/-- The full, unlimited result of a find with filter `f`, in sort order. -/
def queryDocs (store : List Doc) (f : EmFilter) : List Doc :=
  (sortDocs store).filter (matchesFilter f)

/-- The single range query the route issues: the filtered, sorted store
capped at `limit + 1` documents (the lookahead). -/
def coreFetch (store : List Doc) (f : BaseFilter) (limit : Nat)
    (cursor : Option (Int × Nat)) : List Doc :=
  (queryDocs store ⟨f, cursor⟩).take (limit + 1)

/-- The page computation of the route handler: detect `hasMore` via the
lookahead, truncate to `limit`, and derive `nextCursor` from the last item
actually returned. -/
structure PageCore where
  items : List Doc
  nextCursor : Option (Int × Nat)
deriving DecidableEq, Repr

/-- Compute one page exactly as the handler does. -/
def corePage (store : List Doc) (f : BaseFilter) (limit : Nat)
    (cursor : Option (Int × Nat)) : PageCore :=
  let docs := coreFetch store f limit cursor
  let hasMore := decide (limit < docs.length)
  let items := if hasMore then docs.take limit else docs
  let nextCursor := if hasMore && !items.isEmpty then items.getLast?.map Doc.key else none
  ⟨items, nextCursor⟩

/-- The projection key list built by the route (the two object literals
chosen by `includeDetections`). -/
def projectionKeys (includeDetections : Bool) : List String :=
  if includeDetections then
    ["_id", "siteId", "equipmentId", "timestamp", "confidence", "detections"]
  else
    ["_id", "siteId", "equipmentId", "timestamp", "confidence"]

/-- A projected response item: the five always-projected fields plus
`detections` when projected. -/
structure ProjectedItem where
  _id : Nat
  siteId : String
  equipmentId : String
  timestamp : Int
  confidence : ℚ
  detections : Option String
deriving DecidableEq, Repr

/-- Apply the projection to one document. -/
def projectDoc (includeDetections : Bool) (d : Doc) : ProjectedItem :=
  ⟨d._id, d.siteId, d.equipmentId, d.timestamp, d.confidence,
   if includeDetections then some d.detections else none⟩

/-- The JSON response body of a successful request.  `nextCursor` is the
`(timestamp, _id)` pair; its serialisation (`toISOString`, `String(_id)`)
round-trips exactly at millisecond precision and is modelled as the
identity. -/
structure EmissionsResponse where
  count : Nat
  siteId : String
  equipmentId : String
  nextCursor : Option (Int × Nat)
  items : List ProjectedItem
deriving DecidableEq, Repr

/-- The handler body after request validation. -/
def emissionsCore (store : List Doc) (f : BaseFilter) (limit : Nat)
    (includeDetections : Bool) (cursor : Option (Int × Nat)) : EmissionsResponse :=
  let pg := corePage store f limit cursor
  ⟨pg.items.length, f.siteId, f.equipmentId, pg.nextCursor,
   pg.items.map (projectDoc includeDetections)⟩

/-! ### Request validation -/

/-- The raw query string after Fastify schema validation: `siteId` and
`equipmentId` are present non-empty strings, `confidenceMin` is in `[0,1]`
(default 0.75), `limit` is in `[1,1000]` (default 100), and the remaining
parameters are optional strings. -/
structure RawParams where
  siteId : String
  equipmentId : String
  fromQ : Option String
  toQ : Option String
  confidenceMin : ℚ
  limit : Nat
  includeDetections : Bool
  cursorTs : Option String
  cursorId : Option String
deriving DecidableEq, Repr

/-- JavaScript truthiness of an optional string parameter: present and
non-empty (`if (from)`, `if (cursorTs || cursorId)`). -/
def truthy : Option String → Bool
  | none => false
  | some s => !s.isEmpty

/-- Hexadecimal digit test. -/
def isHexDigit (c : Char) : Bool :=
  c.isDigit || ('a' ≤ c && c ≤ 'f') || ('A' ≤ c && c ≤ 'F')

/-- Validity of a `new ObjectId(string)` argument: a 24-character
hexadecimal string (the constructor throws otherwise). -/
def isValidObjectId (s : String) : Bool :=
  s.length == 24 && s.data.all isHexDigit

/-- Value of one hexadecimal digit. -/
def hexDigitVal (c : Char) : Nat :=
  if c.isDigit then c.toNat - 48
  else if 'a' ≤ c && c ≤ 'f' then c.toNat - 87
  else c.toNat - 55

/-- Numeric value of an `ObjectId` hex string (byte-wise comparison of
`ObjectId`s equals comparison of these values). -/
def objectIdVal (s : String) : Nat :=
  s.data.foldl (fun acc c => acc * 16 + hexDigitVal c) 0

/-- Parse one optional time bound (`from` or `to`): a falsy parameter is
ignored, a truthy one must parse as a date. -/
def timeBound (flag : Bool) (s : String) (msg : String) : Except String (Option Int) :=
  if flag then
    match jsParseDate s with
    | none => .error msg
    | some t => .ok (some t)
  else .ok none

/-- The `from > to` rejection test (both bounds present and inverted). -/
def rangeBad : Option Int → Option Int → Bool
  | some a, some b => decide (b < a)
  | _, _ => false

/-- Cursor validation: both-or-neither truthiness, then `cursorTs` must
parse as a date and `cursorId` must be a valid `ObjectId`. -/
def cursorArg (p : RawParams) : Except String (Option (Int × Nat)) :=
  if truthy p.cursorTs || truthy p.cursorId then
    if !(truthy p.cursorTs) || !(truthy p.cursorId) then
      .error "Both cursorTs and cursorId are required together"
    else
      match jsParseDate (p.cursorTs.getD "") with
      | none => .error "Invalid \x27cursorTs\x27 timestamp"
      | some ts =>
        if isValidObjectId (p.cursorId.getD "") then
          .ok (some (ts, objectIdVal (p.cursorId.getD "")))
        else .error "Invalid \x27cursorId\x27 ObjectId"
  else .ok none

/-- The request validation sequence of the handler, in source order; the
result is the base filter and the optional cursor, computed without any
store access. -/
def validateParams (p : RawParams) : Except String (BaseFilter × Option (Int × Nat)) :=
  Except.bind (timeBound (truthy p.fromQ) (p.fromQ.getD "") "Invalid \x27from\x27 timestamp")
    (fun tsGte =>
      Except.bind (timeBound (truthy p.toQ) (p.toQ.getD "") "Invalid \x27to\x27 timestamp")
        (fun tsLte =>
          if rangeBad tsGte tsLte then .error "\x27from\x27 must be <= \x27to\x27"
          else
            Except.bind (cursorArg p)
              (fun cursor =>
                .ok (⟨p.siteId, p.equipmentId, p.confidenceMin, tsGte, tsLte⟩, cursor))))

/-- The whole request handler: validation first (an error is returned as a
400 response before any store access), then the single range query. -/
def emissionsHandler (store : List Doc) (p : RawParams) : Except String EmissionsResponse :=
  match validateParams p with
  | .error e => .error e
  | .ok args => .ok (emissionsCore store args.1 p.limit p.includeDetections args.2)

/-- Repeated paging as a client would drive it: start with no cursor, feed
each response cursor into the next request, stop when `nextCursor` is
`null`; `fuel` bounds the recursion and is instantiated so that it never
runs out. -/
def paginate (store : List Doc) (f : BaseFilter) (limit : Nat) :
    Nat → Option (Int × Nat) → List Doc
  | 0, _ => []
  | fuel + 1, cursor =>
    match (corePage store f limit cursor).nextCursor with
    | none => (corePage store f limit cursor).items
    | some k => (corePage store f limit cursor).items ++ paginate store f limit fuel (some k)

/-- Concatenation of all pages of the cursor walk over a fixed store. -/
def paginateAll (store : List Doc) (f : BaseFilter) (limit : Nat) : List Doc :=
  paginate store f limit (store.length + 1) none

/-! ### Helper lemmas: row normalisation -/

/-- A string consisting only of whitespace converts to the number `0`. -/
theorem jsStringToNumber_whitespace (s : String) (h : s.data.all jsWhitespace = true) :
    jsStringToNumber s = .val 0 := by
  have h1 : s.data.dropWhile jsWhitespace = [] := by
    rw [List.dropWhile_eq_nil_iff]
    intro x hx
    exact (List.all_eq_true.mp h) x hx
  unfold jsStringToNumber
  rw [h1]
  simp

/-- Inversion of `mapRow`: a normalised document's numeric fields are the
successful conversions of the corresponding raw columns. -/
theorem mapRow_fields (row : RawRow) (doc : EmissionDoc) (h : mapRow row = .ok doc) :
    toDate row.timestamp = .ok doc.timestamp ∧
    toNumber row.mass = .ok doc.mass ∧
    toInt row.scanDuration = .ok doc.scanDuration ∧
    toNumber row.confidence = .ok doc.confidence ∧
    toInt row.numDetections = .ok doc.numDetections := by
  unfold mapRow at h
  simp only [bind, Except.bind, pure, Except.pure] at h
  cases hts : toDate row.timestamp <;> rw [hts] at h
  case error => exact absurd h (by simp)
  cases hm : toNumber row.mass <;> rw [hm] at h
  case error => exact absurd h (by simp)
  cases hsd : toInt row.scanDuration <;> rw [hsd] at h
  case error => exact absurd h (by simp)
  cases hcf : toNumber row.confidence <;> rw [hcf] at h
  case error => exact absurd h (by simp)
  cases hnd : toInt row.numDetections <;> rw [hnd] at h
  case error => exact absurd h (by simp)
  simp only [Except.ok.injEq] at h
  subst h
  exact ⟨rfl, rfl, rfl, rfl, rfl⟩

/-! ### Sample inputs for concrete counterexamples and witnesses -/

/-- A raw row whose mass column is the string `Infinity` and whose other
columns all parse. -/
def infinityMassRow : RawRow :=
  ⟨"row-1", "2026-01-01T00:00:00.000Z", "site-1", "Site One", "equip-1", "CH4",
   "Infinity", "kg", "10", "0.9", "2", "[]"⟩

/-- A raw row whose mass column is empty and whose confidence column is
whitespace, with all other columns parsable. -/
def blankBothRow : RawRow :=
  ⟨"row-2", "2026-01-01", "site-1", "Site One", "equip-1", "CH4",
   "", "kg", "10", "  ", "2", "[]"⟩

/-- A fully parsable raw row. -/
def goodRow : RawRow :=
  ⟨"row-3", "2026-01-01", "site-1", "Site One", "equip-1", "CH4",
   "12.34", "kg", "10", "0.9", "2", "[]"⟩

/-- A second fully parsable raw row. -/
def goodRowB : RawRow :=
  ⟨"row-4", "2026-01-02", "site-1", "Site One", "equip-1", "CH4",
   "5", "kg", "12", "0.8", "1", "[]"⟩

/-- A raw row whose timestamp does not parse, so normalisation fails. -/
def badRow : RawRow :=
  ⟨"row-5", "not-a-date", "site-1", "Site One", "equip-1", "CH4",
   "1", "kg", "1", "0.9", "1", "[]"⟩

/-- A sample normalised document (the image of `goodRow`). -/
def sampleDoc : EmissionDoc :=
  ⟨"row-3", 1767225600000, "site-1", "Site One", "equip-1", "CH4",
   .val (1234 / 100 : ℚ), "kg", 10, .val (9 / 10 : ℚ), 2, "[]"⟩

/-- A store oracle whose bulk writes always fully succeed. -/
def okOracle : StoreOracle := fun docs => .success docs.length

/-- A store oracle that fails every batch with a single non-duplicate-key
write error (code 121, document validation failure) and inserts nothing;
consistent with a batch of exactly one document. -/
def oracle121 : StoreOracle := fun _ => .failure (some [121]) 0

/-! ### C8: non-finite numeric parses -/

/-- C8 counterexample: the claim says an input yielding a non-finite number
(such as `Infinity`) fails the row, but `toNumber` checks only
`Number.isNaN`, so `Infinity` is accepted and the row normalises. -/
theorem c8_counterexample :
    toNumber "Infinity" = .ok (JSNum.inf false) ∧
    isOkE (mapRow infinityMassRow) = true := by
  constructor
  · decide
  · decide

/-- C8 amended: `toNumber` parses via the JavaScript string-to-number
conversion and fails exactly when that conversion yields `NaN`; non-finite
values such as `Infinity` are accepted, not rejected. -/
theorem c8_amended (v : String) :
    ((∃ e, toNumber v = .error e) ↔ jsStringToNumber v = .nan) ∧
    toNumber "Infinity" = .ok (JSNum.inf false) := by
  refine ⟨⟨?_, ?_⟩, by decide⟩
  · rintro ⟨e, he⟩
    unfold toNumber at he
    cases h : jsStringToNumber v <;> rw [h] at he <;> simp_all
  · intro h
    exact ⟨_, by unfold toNumber; rw [h]⟩

/-! ### C9: integer parses truncate rather than fail -/

/-- C9 counterexample: the claim says a non-integer raw string such as a
decimal fails the row, but `parseInt(v, 10)` truncates: `toInt "3.7"`
succeeds with `3`. -/
theorem c9_counterexample : toInt "3.7" = .ok 3 := by decide

/-- C9 amended: `toInt` reads the longest leading base-10 integer after an
optional sign, ignoring any trailing characters (so decimal strings and
digit-prefixed garbage are accepted truncated), and fails exactly when no
leading digit exists. -/
theorem c9_amended (v : String) :
    (isOkE (toInt v) = (jsParseInt10 v).isSome) ∧
    toInt "3.7" = .ok 3 ∧ toInt "12abc" = .ok 12 ∧ toInt "0x10" = .ok 0 ∧
    (∃ e, toInt ".5" = .error e) ∧ (∃ e, toInt "abc" = .error e) := by
  refine ⟨?_, by decide, by decide, by decide,
    ⟨"Invalid int: .5", by decide⟩, ⟨"Invalid int: abc", by decide⟩⟩
  unfold toInt isOkE
  cases h : jsParseInt10 v <;> simp

/-! ### C10: blank numeric columns coerce to zero -/

/-- C10: a mass or confidence column that is empty or all whitespace
converts to `0` rather than failing, so a row whose remaining fields parse
is normalised with that field equal to `0`. -/
theorem c10_blank_numeric (row : RawRow) :
    (row.mass.data.all jsWhitespace = true →
      toNumber row.mass = .ok (.val 0) ∧
      ∀ doc, mapRow row = .ok doc → doc.mass = .val 0) ∧
    (row.confidence.data.all jsWhitespace = true →
      toNumber row.confidence = .ok (.val 0) ∧
      ∀ doc, mapRow row = .ok doc → doc.confidence = .val 0) := by
  constructor
  · intro h
    have hm : toNumber row.mass = .ok (.val 0) := by
      unfold toNumber
      rw [jsStringToNumber_whitespace _ h]
    refine ⟨hm, fun doc hdoc => ?_⟩
    have := (mapRow_fields row doc hdoc).2.1
    rw [hm] at this
    exact (Except.ok.injEq _ _).mp this.symm
  · intro h
    have hm : toNumber row.confidence = .ok (.val 0) := by
      unfold toNumber
      rw [jsStringToNumber_whitespace _ h]
    refine ⟨hm, fun doc hdoc => ?_⟩
    have := (mapRow_fields row doc hdoc).2.2.2.1
    rw [hm] at this
    exact (Except.ok.injEq _ _).mp this.symm

/-- C10 witness: both implications discharged at a concrete row (empty
mass, whitespace confidence), which indeed normalises. -/
theorem c10_witness :
    (toNumber blankBothRow.mass = .ok (.val 0) ∧
      ∀ doc, mapRow blankBothRow = .ok doc → doc.mass = .val 0) ∧
    (toNumber blankBothRow.confidence = .ok (.val 0) ∧
      ∀ doc, mapRow blankBothRow = .ok doc → doc.confidence = .val 0) ∧
    isOkE (mapRow blankBothRow) = true :=
  ⟨(c10_blank_numeric blankBothRow).1 (by decide),
   (c10_blank_numeric blankBothRow).2 (by decide),
   by decide⟩

/-! ### C4: which bulk-write failures are fatal -/

/-- C4 counterexample: the claim says every non-duplicate-key bulk failure
propagates fatally, but a thrown bulk error carrying a `writeErrors` array
with the non-duplicate code 121 is absorbed (the flush returns normally)
and not counted into `skipped` either. -/
theorem c4_counterexample :
    flushBatch [sampleDoc] (.failure (some [121]) 0) ⟨0, 0⟩ = .ok ⟨0, 0⟩ := by decide

/-- C4 amended: only errors that do not carry a `writeErrors` field
propagate fatally; an error carrying `writeErrors` is absorbed, adding the
partial-success count to `inserted` and exactly the duplicate-key (11000)
sub-errors to `skipped`, while non-duplicate sub-errors are absorbed
without being counted anywhere. -/
theorem c4_amended (docs : List EmissionDoc) (c : Counters) (codes : List Nat)
    (n nIns nIns2 : Nat) (hne : docs ≠ []) :
    (∃ e, flushBatch docs (.failure none nIns) c = .error e) ∧
    flushBatch docs (.failure (some codes) nIns2) c =
      .ok ⟨c.inserted + nIns2, c.skipped + (codes.filter (fun e => e == 11000)).length⟩ ∧
    flushBatch docs (.success n) c = .ok ⟨c.inserted + n, c.skipped⟩ := by
  have hemp : docs.isEmpty = false := by
    cases docs with
    | nil => exact absurd rfl hne
    | cons a t => rfl
  cases c with
  | mk ci cs =>
    refine ⟨⟨"non-bulk write error: rethrown, run aborted", by simp [flushBatch, hemp]⟩,
      by simp [flushBatch, hemp], by simp [flushBatch, hemp]⟩

/-- C4 witness: the amended behaviour at a concrete one-document batch. -/
theorem c4_witness :
    (∃ e, flushBatch [sampleDoc] (.failure none 0) ⟨5, 7⟩ = .error e) ∧
    flushBatch [sampleDoc] (.failure (some [11000, 121]) 1) ⟨5, 7⟩ = .ok ⟨6, 8⟩ ∧
    flushBatch [sampleDoc] (.success 1) ⟨5, 7⟩ = .ok ⟨6, 7⟩ := by
  have h := c4_amended [sampleDoc] ⟨5, 7⟩ [11000, 121] 1 0 1 (by decide)
  refine ⟨h.1, ?_, ?_⟩
  · rw [h.2.1]; decide
  · rw [h.2.2]

/-! ### C5: counter accounting over a run -/

/-- Well-formedness of a store oracle together with the claim's standing
assumption that write sub-errors are duplicate-key collisions: a success
reports the batch size, and a bulk failure accounts for every document
(inserted or errored) with every error code 11000. -/
def OracleDupOnly (oracle : StoreOracle) : Prop :=
  ∀ docs, match oracle docs with
    | .success n => n = docs.length
    | .failure none _ => True
    | .failure (some codes) nIns =>
        nIns + codes.length = docs.length ∧ ∀ cd ∈ codes, cd = 11000

/-- Equation lemma: a successful bulk write adds its count to `inserted`. -/
theorem flushBatch_eq_success (docs : List EmissionDoc) (n : Nat) (c : Counters)
    (hne : docs.isEmpty = false) :
    flushBatch docs (.success n) c = .ok ⟨c.inserted + n, c.skipped⟩ := by
  cases c
  simp [flushBatch, hne]

/-- Equation lemma: a bulk error carrying `writeErrors` is absorbed. -/
theorem flushBatch_eq_writeErrors (docs : List EmissionDoc) (codes : List Nat) (nIns : Nat)
    (c : Counters) (hne : docs.isEmpty = false) :
    flushBatch docs (.failure (some codes) nIns) c =
      .ok ⟨c.inserted + nIns, c.skipped + (codes.filter (fun e => e == 11000)).length⟩ := by
  cases c
  simp [flushBatch, hne]

/-- Equation lemma: a bulk error without `writeErrors` is rethrown. -/
theorem flushBatch_eq_fatal (docs : List EmissionDoc) (nIns : Nat) (c : Counters)
    (hne : docs.isEmpty = false) :
    flushBatch docs (.failure none nIns) c =
      .error "non-bulk write error: rethrown, run aborted" := by
  simp [flushBatch, hne]

/-- A successful flush moves the whole buffer into the counters. -/
theorem flushState_counts (oracle : StoreOracle) (hw : OracleDupOnly oracle)
    (st fin : IngestState) (h : flushState oracle st = .ok fin) :
    fin.inserted + fin.skipped = st.inserted + st.skipped + st.batch.length ∧
    fin.batch = [] := by
  obtain ⟨sb, si, ss⟩ := st
  obtain ⟨fb, fi, fs⟩ := fin
  unfold flushState at h
  simp only [] at h ⊢
  by_cases hemp : sb.isEmpty = true
  · rw [if_pos hemp] at h
    have hbn : sb = [] := List.isEmpty_iff.mp hemp
    simp only [Except.ok.injEq, IngestState.mk.injEq] at h
    obtain ⟨h1, h2, h3⟩ := h
    subst h1; subst h2; subst h3
    simp [hbn]
  · rw [if_neg hemp] at h
    have hne : sb.isEmpty = false := by
      cases he : sb.isEmpty
      · rfl
      · exact absurd he hemp
    have hwb := hw sb
    cases hfb : flushBatch sb (oracle sb) ⟨si, ss⟩ with
    | error e =>
      rw [hfb] at h
      simp at h
    | ok c =>
      obtain ⟨ci, cs⟩ := c
      rw [hfb] at h
      simp at h
      obtain ⟨h1, h2, h3⟩ := h
      subst h1
      cases hb : oracle sb with
      | success n =>
        rw [hb] at hwb
        simp at hwb
        rw [hb, flushBatch_eq_success sb n ⟨si, ss⟩ hne] at hfb
        simp only [Except.ok.injEq, Counters.mk.injEq] at hfb
        obtain ⟨hc1, hc2⟩ := hfb
        refine ⟨by omega, rfl⟩
      | failure we nIns =>
        cases we with
        | none =>
          rw [hb, flushBatch_eq_fatal sb nIns ⟨si, ss⟩ hne] at hfb
          exact absurd hfb (by simp)
        | some codes =>
          rw [hb] at hwb
          simp at hwb
          obtain ⟨hlen, hall⟩ := hwb
          have hfilter : codes.filter (fun e => e == 11000) = codes :=
            List.filter_eq_self.mpr (fun a ha => by rw [hall a ha]; rfl)
          rw [hb, flushBatch_eq_writeErrors sb codes nIns ⟨si, ss⟩ hne] at hfb
          simp only [Except.ok.injEq, Counters.mk.injEq] at hfb
          obtain ⟨hc1, hc2⟩ := hfb
          have hflen : (codes.filter (fun e => e == 11000)).length = codes.length := by
            rw [hfilter]
          refine ⟨by omega, rfl⟩

/-- Processing one row preserves the accounting invariant, adding one to
the total of counted-or-buffered rows. -/
theorem onRow_counts (B : Nat) (oracle : StoreOracle) (hw : OracleDupOnly oracle)
    (st st2 : IngestState) (row : RawRow) (h : onRow B oracle st row = .ok st2) :
    st2.inserted + st2.skipped + st2.batch.length
      = st.inserted + st.skipped + st.batch.length + 1 := by
  obtain ⟨sb, si, ss⟩ := st
  obtain ⟨tb, ti, ts⟩ := st2
  unfold onRow at h
  simp only [] at h ⊢
  cases hm : mapRow row with
  | error e =>
    rw [hm] at h
    simp at h
    obtain ⟨h1, h2, h3⟩ := h
    subst h1
    omega
  | ok doc =>
    rw [hm] at h
    simp at h
    split at h
    · have := flushState_counts oracle hw _ _ h
      simp at this
      obtain ⟨ha, hb2⟩ := this
      subst hb2
      simp
      omega
    · simp at h
      obtain ⟨h1, h2, h3⟩ := h
      subst h1
      simp
      omega

/-- Over a whole row stream, the final counters absorb the initial state,
its buffer, and one unit per row. -/
theorem ingestRows_counts (B : Nat) (oracle : StoreOracle) (hw : OracleDupOnly oracle) :
    ∀ (rows : List RawRow) (st fin : IngestState),
      ingestRows B oracle st rows = .ok fin →
      fin.inserted + fin.skipped
        = st.inserted + st.skipped + st.batch.length + rows.length
  | [], st, fin, h => by
    have := flushState_counts oracle hw st fin h
    simpa using this.1
  | row :: rest, st, fin, h => by
    unfold ingestRows at h
    cases ho : onRow B oracle st row with
    | error e =>
      rw [ho] at h
      simp at h
    | ok st2 =>
      rw [ho] at h
      simp at h
      have IH := ingestRows_counts B oracle hw rest st2 fin h
      have hone := onRow_counts B oracle hw st st2 row ho
      simp only [List.length_cons]
      omega

/-- C5 amended: provided every bulk-write sub-error is a duplicate-key
(11000) error and write results account for the whole batch, completing a
run gives `inserted + skipped = totalRowsSeen` (the code keeps one merged
`skipped` counter for duplicate-skips and row-parse skips); a batch
failing with non-duplicate write sub-errors breaks the accounting, see the
counterexample. -/
theorem c5_amended (B : Nat) (oracle : StoreOracle) (rows : List RawRow) (c : Counters)
    (hw : OracleDupOnly oracle) (h : runIngest B oracle rows = .ok c) :
    c.inserted + c.skipped = rows.length := by
  obtain ⟨ci, cs⟩ := c
  show ci + cs = rows.length
  unfold runIngest at h
  cases hr : ingestRows B oracle ⟨[], 0, 0⟩ rows with
  | error e =>
    rw [hr] at h
    simp at h
  | ok fin =>
    rw [hr] at h
    simp at h
    obtain ⟨h1, h2⟩ := h
    have := ingestRows_counts B oracle hw rows ⟨[], 0, 0⟩ fin hr
    simp at this
    omega

/-- C5 counterexample: a run over one parsable row whose single batch fails
with a (well-formed) non-duplicate write error completes normally with
`inserted = 0` and `skipped = 0`, so no counter accounts for the row:
`0 + 0 ≠ 1`. -/
theorem c5_counterexample :
    runIngest 5000 oracle121 [goodRow] = .ok ⟨0, 0⟩ ∧
    [goodRow].length = 1 ∧ 0 + 0 ≠ 1 := by
  refine ⟨by decide, rfl, by decide⟩

/-- C5 witness: the amended accounting at a concrete three-row run (two
inserted, one skipped by normalisation) with batch size 2. -/
theorem c5_witness :
    runIngest 2 okOracle [goodRow, goodRowB, badRow] = .ok ⟨2, 1⟩ ∧
    (⟨2, 1⟩ : Counters).inserted + (⟨2, 1⟩ : Counters).skipped = [goodRow, goodRowB, badRow].length := by
  have hrun : runIngest 2 okOracle [goodRow, goodRowB, badRow] = .ok ⟨2, 1⟩ := by decide
  exact ⟨hrun, c5_amended 2 okOracle [goodRow, goodRowB, badRow] ⟨2, 1⟩ (fun docs => rfl) hrun⟩

/-! ### Helper lemmas: the query page -/

/-- Every returned item comes from the single capped range query. -/
theorem corePage_items_subset (store : List Doc) (f : BaseFilter) (limit : Nat)
    (cursor : Option (Int × Nat)) :
    ∀ x ∈ (corePage store f limit cursor).items, x ∈ coreFetch store f limit cursor := by
  intro x hx
  unfold corePage at hx
  simp only [] at hx
  split at hx
  · exact List.mem_of_mem_take hx
  · exact hx

/-- Every fetched document satisfies the filter document. -/
theorem coreFetch_mem_filter (store : List Doc) (f : BaseFilter) (limit : Nat)
    (cursor : Option (Int × Nat)) :
    ∀ x ∈ coreFetch store f limit cursor, matchesFilter ⟨f, cursor⟩ x = true := by
  intro x hx
  unfold coreFetch at hx
  have hq : x ∈ queryDocs store ⟨f, cursor⟩ := List.mem_of_mem_take hx
  unfold queryDocs at hq
  exact List.of_mem_filter hq

/-! ### Demo store shared by concrete witnesses -/

/-- A five-document demo store: three documents match the demo scope and
confidence floor, two share a timestamp. -/
def demoStore : List Doc :=
  [⟨1, 10, "s1", "e1", mkRat 9 10, "[]"⟩,
   ⟨2, 10, "s1", "e1", mkRat 8 10, "[]"⟩,
   ⟨3, 5, "s1", "e1", mkRat 95 100, "[]"⟩,
   ⟨4, 7, "s2", "e1", mkRat 9 10, "[]"⟩,
   ⟨5, 10, "s1", "e1", mkRat 5 10, "[]"⟩]

/-- The demo scope filter with the default confidence floor. -/
def demoFilter : BaseFilter := ⟨"s1", "e1", mkRat 3 4, none, none⟩

/-- The first demo document (timestamp 10, identity 1). -/
def demoDoc : Doc := ⟨1, 10, "s1", "e1", mkRat 9 10, "[]"⟩

/-! ### C2: the cursor predicate -/

/-- C2: a valid cursor adds exactly the composite disjunction
`timestamp < cursorTs OR (timestamp == cursorTs AND recordIdentity <
cursorId)` to the base filter, so a document passes the cursored filter
exactly when it passes the base filter and sorts strictly after the cursor
position, and every item of a cursored page sorts strictly after the
cursor. -/
theorem c2_cursor_predicate (f : BaseFilter) (ts : Int) (oid : Nat) (d : Doc)
    (store : List Doc) (limit : Nat) :
    matchesFilter ⟨f, some (ts, oid)⟩ d = (matchesBase f d && cursorPred ts oid d) ∧
    (matchesFilter ⟨f, some (ts, oid)⟩ d = true ↔
      (matchesFilter ⟨f, none⟩ d = true ∧
        (d.timestamp < ts ∨ (d.timestamp = ts ∧ d._id < oid)))) ∧
    (∀ x ∈ (corePage store f limit (some (ts, oid))).items,
      x.timestamp < ts ∨ (x.timestamp = ts ∧ x._id < oid)) := by
  refine ⟨rfl, ?_, ?_⟩
  · simp [matchesFilter, afterCursor, cursorPred]
  · intro x hx
    have hm := coreFetch_mem_filter store f limit (some (ts, oid)) x
      (corePage_items_subset store f limit (some (ts, oid)) x hx)
    simp [matchesFilter, afterCursor, cursorPred] at hm
    exact hm.2

/-- C2 witness: the page for a concrete cursored request (cursor at
timestamp 10, identity 2) contains only documents strictly after the
cursor. -/
theorem c2_witness :
    matchesFilter ⟨demoFilter, some (10, 2)⟩ demoDoc
      = (matchesBase demoFilter demoDoc && cursorPred 10 2 demoDoc) ∧
    (matchesFilter ⟨demoFilter, some (10, 2)⟩ demoDoc = true ↔
      (matchesFilter ⟨demoFilter, none⟩ demoDoc = true ∧
        (demoDoc.timestamp < 10 ∨
          (demoDoc.timestamp = 10 ∧ demoDoc._id < 2)))) ∧
    (∀ x ∈ (corePage demoStore demoFilter 2 (some (10, 2))).items,
      x.timestamp < 10 ∨ (x.timestamp = 10 ∧ x._id < 2)) :=
  c2_cursor_predicate demoFilter 10 2 demoDoc demoStore 2

/-! ### C6: the projection -/

/-- C6 counterexample: the projection keeps only `_id`, `siteId`,
`equipmentId`, `timestamp`, `confidence` (plus `detections`), so the
claimed data-model attributes `mass`, `siteName`, `id`, `scanDuration`
are not in the projected output. -/
theorem c6_counterexample :
    "mass" ∉ projectionKeys false ∧ "mass" ∉ projectionKeys true ∧
    "siteName" ∉ projectionKeys false ∧ "id" ∉ projectionKeys false ∧
    "scanDuration" ∉ projectionKeys true ∧ "numDetections" ∉ projectionKeys true := by
  decide

/-- C6 amended: each returned item carries exactly the projected fields
`_id`, `siteId`, `equipmentId`, `timestamp`, `confidence`, and the
`detections` field is present in the output if and only if
`includeDetections` is true (omitted at projection level when false). -/
theorem c6_amended (b : Bool) (store : List Doc) (f : BaseFilter) (limit : Nat)
    (cursor : Option (Int × Nat)) :
    projectionKeys b
      = ["_id", "siteId", "equipmentId", "timestamp", "confidence"]
        ++ (if b then ["detections"] else []) ∧
    (("detections" ∈ projectionKeys b) ↔ b = true) ∧
    (∀ itm ∈ (emissionsCore store f limit b cursor).items, itm.detections.isSome = b) := by
  refine ⟨?_, ?_, ?_⟩
  · cases b <;> rfl
  · cases b <;> simp [projectionKeys]
  · intro itm hitm
    unfold emissionsCore at hitm
    simp only [List.mem_map] at hitm
    obtain ⟨d, hd, hpd⟩ := hitm
    rw [← hpd]
    cases b <;> simp [projectDoc]

/-- C6 witness: the projection facts at a concrete query with
`includeDetections = true`. -/
theorem c6_witness :
    projectionKeys true
      = ["_id", "siteId", "equipmentId", "timestamp", "confidence"]
        ++ (if true then ["detections"] else []) ∧
    (("detections" ∈ projectionKeys true) ↔ true = true) ∧
    (∀ itm ∈ (emissionsCore demoStore demoFilter 2 true none).items,
      itm.detections.isSome = true) :=
  c6_amended true demoStore demoFilter 2 none

/-! ### C3: lookahead, truncation and the next cursor -/

/-- C3: the planner issues one range query capped at `limit + 1`; when the
store returns more than `limit` rows the response holds exactly the first
`limit` of them (never the lookahead) and `nextCursor` is the
`(timestamp, _id)` key of the last returned item; otherwise all rows are
returned and `nextCursor` is null. -/
theorem corePage_shape (store : List Doc) (f : BaseFilter) (limit : Nat)
    (cursor : Option (Int × Nat)) (hlim : 1 ≤ limit) :
    coreFetch store f limit cursor = (queryDocs store ⟨f, cursor⟩).take (limit + 1) ∧
    (corePage store f limit cursor).items.length ≤ limit ∧
    (limit < (queryDocs store ⟨f, cursor⟩).length →
      (corePage store f limit cursor).items = (queryDocs store ⟨f, cursor⟩).take limit ∧
      (corePage store f limit cursor).nextCursor
        = ((corePage store f limit cursor).items.getLast?).map Doc.key ∧
      (corePage store f limit cursor).nextCursor ≠ none) ∧
    ((queryDocs store ⟨f, cursor⟩).length ≤ limit →
      (corePage store f limit cursor).items = queryDocs store ⟨f, cursor⟩ ∧
      (corePage store f limit cursor).nextCursor = none) := by
  have hfetch : coreFetch store f limit cursor
      = (queryDocs store ⟨f, cursor⟩).take (limit + 1) := rfl
  have hflen : (coreFetch store f limit cursor).length
      = min (limit + 1) (queryDocs store ⟨f, cursor⟩).length := by
    rw [hfetch]
    exact List.length_take _ _
  by_cases hmore : limit < (queryDocs store ⟨f, cursor⟩).length
  · have hfl : (coreFetch store f limit cursor).length = limit + 1 := by
      rw [hflen]
      omega
    have hcond : decide (limit < (coreFetch store f limit cursor).length) = true := by
      rw [hfl]
      simp
    have hitems : (corePage store f limit cursor).items
        = (queryDocs store ⟨f, cursor⟩).take limit := by
      unfold corePage
      simp only [hcond, if_true, Bool.true_and]
      rw [hfetch, List.take_take]
      congr 1
      omega
    have hilen : (corePage store f limit cursor).items.length = limit := by
      rw [hitems, List.length_take]
      omega
    have hne : (corePage store f limit cursor).items ≠ [] := by
      apply List.ne_nil_of_length_pos
      omega
    have hnc : (corePage store f limit cursor).nextCursor
        = ((corePage store f limit cursor).items.getLast?).map Doc.key := by
      show (corePage store f limit cursor).nextCursor
        = ((corePage store f limit cursor).items.getLast?).map Doc.key
      unfold corePage
      simp only [hcond, if_true]
      have : ((coreFetch store f limit cursor).take limit).isEmpty = false := by
        have h1 : ((coreFetch store f limit cursor).take limit)
            = (corePage store f limit cursor).items := by
          unfold corePage
          simp only [hcond, if_true]
        rw [h1]
        cases he : (corePage store f limit cursor).items with
        | nil => exact absurd he hne
        | cons a t => rfl
      simp only [this]
      rfl
    refine ⟨hfetch, ?_, fun _ => ⟨hitems, hnc, ?_⟩, fun hle => absurd hmore (by omega)⟩
    · omega
    · rw [hnc]
      have hsome : ((corePage store f limit cursor).items.getLast?).isSome := by
        rw [List.getLast?_isSome]
        exact hne
      cases hg : (corePage store f limit cursor).items.getLast? with
      | none => rw [hg] at hsome; simp at hsome
      | some a => simp
  · have hfl : coreFetch store f limit cursor = queryDocs store ⟨f, cursor⟩ := by
      rw [hfetch]
      exact List.take_of_length_le (by omega)
    have hcond : decide (limit < (coreFetch store f limit cursor).length) = false := by
      rw [hfl]
      simp
      omega
    have hitems : (corePage store f limit cursor).items = queryDocs store ⟨f, cursor⟩ := by
      unfold corePage
      simp only [hcond, Bool.false_eq_true, if_false]
      exact hfl
    have hnc : (corePage store f limit cursor).nextCursor = none := by
      unfold corePage
      simp only [hcond, Bool.false_and, Bool.false_eq_true, if_false]
    refine ⟨hfetch, ?_, fun hlt => absurd hlt hmore, fun _ => ⟨hitems, hnc⟩⟩
    rw [hitems]
    omega

/-- C3: the claim restated over the embedded handler; the content is the
general page-shape lemma above. -/
theorem c3_page_shape (store : List Doc) (f : BaseFilter) (limit : Nat)
    (cursor : Option (Int × Nat)) (hlim : 1 ≤ limit) :
    coreFetch store f limit cursor = (queryDocs store ⟨f, cursor⟩).take (limit + 1) ∧
    (corePage store f limit cursor).items.length ≤ limit ∧
    (limit < (queryDocs store ⟨f, cursor⟩).length →
      (corePage store f limit cursor).items = (queryDocs store ⟨f, cursor⟩).take limit ∧
      (corePage store f limit cursor).nextCursor
        = ((corePage store f limit cursor).items.getLast?).map Doc.key ∧
      (corePage store f limit cursor).nextCursor ≠ none) ∧
    ((queryDocs store ⟨f, cursor⟩).length ≤ limit →
      (corePage store f limit cursor).items = queryDocs store ⟨f, cursor⟩ ∧
      (corePage store f limit cursor).nextCursor = none) :=
  corePage_shape store f limit cursor hlim

/-- C3 witness: the lookahead branch at a concrete query (three matching
documents, limit 1). -/
theorem c3_witness :
    (corePage demoStore demoFilter 1 none).items
      = (queryDocs demoStore ⟨demoFilter, none⟩).take 1 ∧
    (corePage demoStore demoFilter 1 none).nextCursor
      = ((corePage demoStore demoFilter 1 none).items.getLast?).map Doc.key ∧
    (corePage demoStore demoFilter 1 none).nextCursor ≠ none :=
  (c3_page_shape demoStore demoFilter 1 none (by decide)).2.2.1 (by decide)

/-! ### C7: request validation rejects before any store access -/

/-- Reduction of `Except.bind` on an error. -/
theorem except_bind_error {ε α β : Type} (e : ε) (f : α → Except ε β) :
    Except.bind (.error e) f = .error e := rfl

/-- Reduction of `Except.bind` on a success. -/
theorem except_bind_ok {ε α β : Type} (a : α) (f : α → Except ε β) :
    Except.bind (.ok a) f = f a := rfl

/-- The client-error messages the route can produce. -/
def errMsgs : List String :=
  ["Invalid \x27from\x27 timestamp", "Invalid \x27to\x27 timestamp",
   "\x27from\x27 must be <= \x27to\x27",
   "Both cursorTs and cursorId are required together",
   "Invalid \x27cursorTs\x27 timestamp", "Invalid \x27cursorId\x27 ObjectId"]

/-- A truthy time bound that validated must have parsed. -/
theorem timeBound_ok_true (s msg : String) (r : Option Int)
    (h : timeBound true s msg = .ok r) :
    ∃ t, jsParseDate s = some t ∧ r = some t := by
  unfold timeBound at h
  rw [if_pos rfl] at h
  cases hp : jsParseDate s with
  | none => rw [hp] at h; exact absurd h (by simp)
  | some t =>
    rw [hp] at h
    simp at h
    exact ⟨t, rfl, h.symm⟩

/-- A falsy time bound validates to `none`. -/
theorem timeBound_ok_false (s msg : String) (r : Option Int)
    (h : timeBound false s msg = .ok r) : r = none := by
  unfold timeBound at h
  simp at h
  exact h.symm

/-- A failed time bound reports its own message. -/
theorem timeBound_error (flag : Bool) (s msg e : String)
    (h : timeBound flag s msg = .error e) : e = msg := by
  unfold timeBound at h
  cases flag with
  | false => simp at h
  | true =>
    rw [if_pos rfl] at h
    cases hp : jsParseDate s with
    | none =>
      rw [hp] at h
      simp at h
      exact h.symm
    | some t =>
      rw [hp] at h
      exact absurd h (by simp)

/-- A failed cursor validation reports one of the three cursor messages. -/
theorem cursorArg_error (p : RawParams) (e : String) (h : cursorArg p = .error e) :
    e ∈ errMsgs := by
  unfold cursorArg at h
  split at h
  · split at h
    · simp at h
      subst h
      decide
    · cases hp : jsParseDate (p.cursorTs.getD "") with
      | none =>
        rw [hp] at h
        simp at h
        subst h
        decide
      | some ts =>
        rw [hp] at h
        simp at h
        split at h
        · exact absurd h (by simp)
        · simp at h
          subst h
          decide
  · exact absurd h (by simp)

/-- A validated cursor argument implies all four cursor conditions. -/
theorem cursorArg_ok (p : RawParams) (cur : Option (Int × Nat))
    (h : cursorArg p = .ok cur)
    (hor : (truthy p.cursorTs || truthy p.cursorId) = true) :
    truthy p.cursorTs = true ∧ truthy p.cursorId = true ∧
    (∃ t, jsParseDate (p.cursorTs.getD "") = some t) ∧
    isValidObjectId (p.cursorId.getD "") = true := by
  unfold cursorArg at h
  rw [if_pos hor] at h
  by_cases hand : (!(truthy p.cursorTs) || !(truthy p.cursorId)) = true
  · rw [if_pos hand] at h
    exact absurd h (by simp)
  · rw [if_neg hand] at h
    have hts : truthy p.cursorTs = true := by
      cases h1 : truthy p.cursorTs
      · exact absurd (by simp [h1]) hand
      · rfl
    have hid : truthy p.cursorId = true := by
      cases h2 : truthy p.cursorId
      · exact absurd (by simp [h2]) hand
      · rfl
    cases hp : jsParseDate (p.cursorTs.getD "") with
    | none =>
      rw [hp] at h
      exact absurd h (by simp)
    | some ts =>
      rw [hp] at h
      simp at h
      split at h
      next hvalid => exact ⟨hts, hid, ⟨ts, rfl⟩, hvalid⟩
      next hvalid => exact absurd h (by simp)

/-- Master case split: every request either fails validation with one of
the route's own error messages, or validates with every validity condition
established. -/
theorem validateParams_cases (p : RawParams) :
    (∃ msg, validateParams p = .error msg ∧ msg ∈ errMsgs) ∨
    (∃ args, validateParams p = .ok args ∧
      (truthy p.fromQ = true → ∃ t, jsParseDate (p.fromQ.getD "") = some t) ∧
      (truthy p.toQ = true → ∃ t, jsParseDate (p.toQ.getD "") = some t) ∧
      (∀ a b, truthy p.fromQ = true → truthy p.toQ = true →
        jsParseDate (p.fromQ.getD "") = some a → jsParseDate (p.toQ.getD "") = some b →
        ¬ b < a) ∧
      ((truthy p.cursorTs || truthy p.cursorId) = true →
        truthy p.cursorTs = true ∧ truthy p.cursorId = true ∧
        (∃ t, jsParseDate (p.cursorTs.getD "") = some t) ∧
        isValidObjectId (p.cursorId.getD "") = true)) := by
  cases h1 : timeBound (truthy p.fromQ) (p.fromQ.getD "") "Invalid \x27from\x27 timestamp" with
  | error e =>
    left
    refine ⟨e, ?_, ?_⟩
    · unfold validateParams
      rw [h1, except_bind_error]
    · rw [timeBound_error _ _ _ _ h1]
      decide
  | ok tsGte =>
  cases h2 : timeBound (truthy p.toQ) (p.toQ.getD "") "Invalid \x27to\x27 timestamp" with
  | error e =>
    left
    refine ⟨e, ?_, ?_⟩
    · unfold validateParams
      rw [h1]
      simp only [except_bind_ok]
      rw [h2, except_bind_error]
    · rw [timeBound_error _ _ _ _ h2]
      decide
  | ok tsLte =>
  by_cases hr : rangeBad tsGte tsLte = true
  · left
    refine ⟨"\x27from\x27 must be <= \x27to\x27", ?_, by decide⟩
    unfold validateParams
    rw [h1]
    simp only [except_bind_ok]
    rw [h2]
    simp only [except_bind_ok]
    rw [if_pos hr]
  · cases h3 : cursorArg p with
    | error e =>
      left
      refine ⟨e, ?_, cursorArg_error p e h3⟩
      unfold validateParams
      rw [h1]
      simp only [except_bind_ok]
      rw [h2]
      simp only [except_bind_ok]
      rw [if_neg hr, h3, except_bind_error]
    | ok cursor =>
      right
      refine ⟨(⟨p.siteId, p.equipmentId, p.confidenceMin, tsGte, tsLte⟩, cursor), ?_, ?_, ?_, ?_, ?_⟩
      · unfold validateParams
        rw [h1]
        simp only [except_bind_ok]
        rw [h2]
        simp only [except_bind_ok]
        rw [if_neg hr, h3, except_bind_ok]
      · intro hf
        rw [hf] at h1
        obtain ⟨t, ht, _⟩ := timeBound_ok_true _ _ _ h1
        exact ⟨t, ht⟩
      · intro hf
        rw [hf] at h2
        obtain ⟨t, ht, _⟩ := timeBound_ok_true _ _ _ h2
        exact ⟨t, ht⟩
      · intro a b hf htt ha hb hba
        rw [hf] at h1
        rw [htt] at h2
        obtain ⟨t1, ht1, hg1⟩ := timeBound_ok_true _ _ _ h1
        obtain ⟨t2, ht2, hg2⟩ := timeBound_ok_true _ _ _ h2
        rw [ha] at ht1
        rw [hb] at ht2
        have ha1 : tsGte = some a := by rw [hg1, Option.some_inj.mp ht1]
        have hb1 : tsLte = some b := by rw [hg2, Option.some_inj.mp ht2]
        rw [ha1, hb1] at hr
        unfold rangeBad at hr
        simp at hr
        omega
      · intro hor
        exact cursorArg_ok p cursor h3 hor

/-- The invalid-request conditions enumerated by the claim, expressed over
the raw parameters (a parameter is "supplied" when truthy, the JavaScript
test the route applies). -/
def invalidRequest (p : RawParams) : Prop :=
  (truthy p.fromQ = true ∧ jsParseDate (p.fromQ.getD "") = none) ∨
  (truthy p.toQ = true ∧ jsParseDate (p.toQ.getD "") = none) ∨
  (∃ a b, truthy p.fromQ = true ∧ truthy p.toQ = true ∧
    jsParseDate (p.fromQ.getD "") = some a ∧ jsParseDate (p.toQ.getD "") = some b ∧ b < a) ∨
  ((truthy p.cursorTs || truthy p.cursorId) = true ∧
    (truthy p.cursorTs && truthy p.cursorId) = false) ∨
  (truthy p.cursorTs = true ∧ truthy p.cursorId = true ∧
    jsParseDate (p.cursorTs.getD "") = none) ∨
  (truthy p.cursorTs = true ∧ truthy p.cursorId = true ∧
    isValidObjectId (p.cursorId.getD "") = false)

/-- C7: every invalid request is rejected with one of the route's own
client-error messages, and the response is computed without consulting the
store (the handler result is independent of the store, so the range query
is never issued). -/
theorem c7_invalid_rejected (p : RawParams) (h : invalidRequest p) :
    (∃ msg, validateParams p = .error msg ∧ msg ∈ errMsgs) ∧
    (∀ store store' : List Doc, emissionsHandler store p = emissionsHandler store' p) := by
  rcases validateParams_cases p with ⟨msg, hm, hmem⟩ | ⟨args, hok, hv1, hv2, hv3, hv4⟩
  · refine ⟨⟨msg, hm, hmem⟩, fun s s' => ?_⟩
    unfold emissionsHandler
    rw [hm]
  · exfalso
    rcases h with h | h | h | h | h | h
    · obtain ⟨hf, hn⟩ := h
      obtain ⟨t, ht⟩ := hv1 hf
      rw [hn] at ht
      cases ht
    · obtain ⟨hf, hn⟩ := h
      obtain ⟨t, ht⟩ := hv2 hf
      rw [hn] at ht
      cases ht
    · obtain ⟨a, b, hf, htt, ha, hb, hba⟩ := h
      exact hv3 a b hf htt ha hb hba
    · obtain ⟨hor, hand⟩ := h
      obtain ⟨hc1, hc2, _, _⟩ := hv4 hor
      rw [hc1, hc2] at hand
      cases hand
    · obtain ⟨hc1, hc2, hn⟩ := h
      obtain ⟨_, _, ⟨t, ht⟩, _⟩ := hv4 (by rw [hc1]; rfl)
      rw [hn] at ht
      cases ht
    · obtain ⟨hc1, hc2, hn⟩ := h
      obtain ⟨_, _, _, hval⟩ := hv4 (by rw [hc1]; rfl)
      rw [hn] at hval
      cases hval

/-- A concrete invalid request: `cursorTs` supplied without `cursorId`. -/
def halfCursorParams : RawParams :=
  ⟨"s1", "e1", none, none, mkRat 3 4, 100, false, some "2026-01-01T00:00:00.000Z", none⟩

/-- C7 witness: the rejection at the concrete half-cursor request. -/
theorem c7_witness :
    (∃ msg, validateParams halfCursorParams = .error msg ∧ msg ∈ errMsgs) ∧
    (∀ store store' : List Doc,
      emissionsHandler store halfCursorParams = emissionsHandler store' halfCursorParams) :=
  c7_invalid_rejected halfCursorParams
    (Or.inr (Or.inr (Or.inr (Or.inl ⟨by decide, by decide⟩))))

/-! ### C1: the cursor walk visits every matching record exactly once -/

/-- Strictly-after relation on documents under `(timestamp desc, _id desc)`:
`strictAfter a b` holds when `b` sorts strictly after `a`. -/
def strictAfter (a b : Doc) : Prop :=
  b.timestamp < a.timestamp ∨ (b.timestamp = a.timestamp ∧ b._id < a._id)

/-- The sorted, base-filtered store: the reference list the cursor walk
traverses. -/
def baseSorted (store : List Doc) (f : BaseFilter) : List Doc :=
  (sortDocs store).filter (matchesBase f)

/-- Unfolding of the cursor clause at a concrete cursor. -/
theorem afterCursor_some (ts : Int) (oid : Nat) (x : Doc) :
    afterCursor (some (ts, oid)) x = cursorPred ts oid x := rfl

/-- The cursor predicate as a proposition. -/
theorem cursorPred_eq_true (ts : Int) (oid : Nat) (x : Doc) :
    cursorPred ts oid x = true ↔
      (x.timestamp < ts ∨ (x.timestamp = ts ∧ x._id < oid)) := by
  simp [cursorPred]

/-- The negated cursor predicate as a proposition. -/
theorem cursorPred_eq_false (ts : Int) (oid : Nat) (x : Doc) :
    cursorPred ts oid x = false ↔
      ¬(x.timestamp < ts ∨ (x.timestamp = ts ∧ x._id < oid)) := by
  rw [← Bool.not_eq_true, cursorPred_eq_true]

/-- A cursored query is the cursor-filtered base query. -/
theorem queryDocs_split (store : List Doc) (f : BaseFilter) (c : Option (Int × Nat)) :
    queryDocs store ⟨f, c⟩ = (baseSorted store f).filter (afterCursor c) := by
  unfold queryDocs baseSorted
  rw [List.filter_filter]
  apply List.filter_congr
  intro x hx
  unfold matchesFilter
  simp only []
  rw [Bool.and_comm]

/-- With unique `_id`s the sorted base query is strictly descending. -/
theorem baseSorted_pairwise (store : List Doc) (f : BaseFilter)
    (hids : (store.map Doc._id).Nodup) :
    (baseSorted store f).Pairwise strictAfter := by
  have hsorted : List.Pairwise sortRel (sortDocs store) :=
    List.sorted_insertionSort sortRel store
  have hM1 : (baseSorted store f).Pairwise sortRel :=
    List.Pairwise.filter _ hsorted
  have hperm : List.Perm (sortDocs store) store := List.perm_insertionSort sortRel store
  have hids2 : ((sortDocs store).map Doc._id).Nodup :=
    (List.Perm.nodup_iff (List.Perm.map Doc._id hperm)).mpr hids
  have hsub : List.Sublist ((baseSorted store f).map Doc._id) ((sortDocs store).map Doc._id) :=
    List.Sublist.map Doc._id (List.filter_sublist _)
  have hids3 : ((baseSorted store f).map Doc._id).Nodup := List.Nodup.sublist hsub hids2
  have hne : (baseSorted store f).Pairwise (fun a b => a._id ≠ b._id) :=
    List.pairwise_map.mp hids3
  refine (List.Pairwise.and hM1 hne).imp ?_
  intro a b hab
  obtain ⟨h1, h2⟩ := hab
  unfold sortRel at h1
  unfold strictAfter
  omega

/-- In a strictly descending list, filtering by "strictly after the element
at index `i`" is exactly dropping the first `i + 1` elements. -/
theorem filter_strict_drop :
    ∀ (q : List Doc), q.Pairwise strictAfter →
      ∀ (i : Nat) (d : Doc), q[i]? = some d →
        q.filter (fun x => cursorPred d.timestamp d._id x) = q.drop (i + 1)
  | [], _, i, d, h => by simp at h
  | a :: t, hq, 0, d, h => by
    simp at h
    subst h
    have hhead : ∀ b ∈ t, strictAfter a b := (List.pairwise_cons.mp hq).1
    have hself : cursorPred a.timestamp a._id a = false := by
      rw [cursorPred_eq_false]
      omega
    simp only [List.filter_cons, hself, Bool.false_eq_true, if_false, List.drop_succ_cons,
      List.drop_zero]
    apply List.filter_eq_self.mpr
    intro x hx
    exact (cursorPred_eq_true _ _ _).mpr (hhead x hx)
  | a :: t, hq, i + 1, d, h => by
    have ht : t[i]? = some d := by simpa using h
    have hmem : d ∈ t := List.getElem?_mem ht
    have hhead : ∀ b ∈ t, strictAfter a b := (List.pairwise_cons.mp hq).1
    have hq2 : t.Pairwise strictAfter := (List.pairwise_cons.mp hq).2
    have hd : strictAfter a d := hhead d hmem
    have hfa : cursorPred d.timestamp d._id a = false := by
      rw [cursorPred_eq_false]
      unfold strictAfter at hd
      omega
    simp only [List.filter_cons, hfa, Bool.false_eq_true, if_false, List.drop_succ_cons]
    exact filter_strict_drop t hq2 i d ht

/-- The heart of the pagination proof: with enough fuel, the cursor walk
starting at cursor `c` returns exactly the cursor-filtered base query. -/
theorem paginate_eq_filter (store : List Doc) (f : BaseFilter) (limit : Nat)
    (hlim : 1 ≤ limit) (hids : (store.map Doc._id).Nodup) :
    ∀ (fuel : Nat) (c : Option (Int × Nat)),
      ((baseSorted store f).filter (afterCursor c)).length < fuel →
      paginate store f limit fuel c = (baseSorted store f).filter (afterCursor c) := by
  intro fuel
  induction fuel with
  | zero => intro c hlen; omega
  | succ fuel IH =>
    intro c hlen
    set M := baseSorted store f with hM
    set q := M.filter (afterCursor c) with hqdef
    have hqq : queryDocs store ⟨f, c⟩ = q := queryDocs_split store f c
    have hMpw : M.Pairwise strictAfter := baseSorted_pairwise store f hids
    have hqpw : q.Pairwise strictAfter := List.Pairwise.filter _ hMpw
    have hps := corePage_shape store f limit c hlim
    rw [hqq] at hps
    by_cases hmore : limit < q.length
    · obtain ⟨hitems, hnc, hncne⟩ := hps.2.2.1 hmore
      have hilen : (corePage store f limit c).items.length = limit := by
        rw [hitems, List.length_take]
        omega
      have hgl : (corePage store f limit c).items.getLast? = q[limit - 1]? := by
        rw [List.getLast?_eq_getElem?, hilen, hitems, List.getElem?_take_of_lt (by omega)]
      obtain ⟨d, hd⟩ : ∃ d, q[limit - 1]? = some d := by
        cases hqd : q[limit - 1]? with
        | none =>
          have := List.getElem?_eq_none_iff.mp hqd
          omega
        | some d => exact ⟨d, rfl⟩
      have hnc2 : (corePage store f limit c).nextCursor = some (d.timestamp, d._id) := by
        rw [hnc, hgl, hd]
        rfl
      have hdq : d ∈ q := List.getElem?_mem hd
      have hdc : afterCursor c d = true := List.of_mem_filter hdq
      have hstep1 : M.filter (fun x => cursorPred d.timestamp d._id x)
          = M.filter (fun x => cursorPred d.timestamp d._id x && afterCursor c x) := by
        apply List.filter_congr
        intro x hx
        cases hcp : cursorPred d.timestamp d._id x with
        | false => simp
        | true =>
          have hax : afterCursor c x = true := by
            cases c with
            | none => rfl
            | some k =>
              obtain ⟨ts, oid⟩ := k
              rw [afterCursor_some] at hdc ⊢
              rw [cursorPred_eq_true] at hdc ⊢
              rw [cursorPred_eq_true] at hcp
              omega
          simp [hax]
      have hstep2 : q.filter (fun x => cursorPred d.timestamp d._id x)
          = M.filter (fun x => cursorPred d.timestamp d._id x && afterCursor c x) := by
        rw [hqdef]
        exact List.filter_filter _ _
      have hstep3 : q.filter (fun x => cursorPred d.timestamp d._id x) = q.drop limit := by
        have hfs := filter_strict_drop q hqpw (limit - 1) d hd
        rw [show limit - 1 + 1 = limit from by omega] at hfs
        exact hfs
      have hsuffix : M.filter (afterCursor (some (d.timestamp, d._id))) = q.drop limit := by
        calc M.filter (afterCursor (some (d.timestamp, d._id)))
            = M.filter (fun x => cursorPred d.timestamp d._id x) := rfl
          _ = M.filter (fun x => cursorPred d.timestamp d._id x && afterCursor c x) := hstep1
          _ = q.filter (fun x => cursorPred d.timestamp d._id x) := hstep2.symm
          _ = q.drop limit := hstep3
      have hlen2 : (M.filter (afterCursor (some (d.timestamp, d._id)))).length < fuel := by
        rw [hsuffix, List.length_drop]
        omega
      have hIH := IH (some (d.timestamp, d._id)) hlen2
      show paginate store f limit (fuel + 1) c = q
      unfold paginate
      rw [hnc2]
      simp only []
      rw [hitems, hIH, hsuffix]
      exact List.take_append_drop limit q
    · have hle : q.length ≤ limit := by omega
      obtain ⟨hitems, hnc⟩ := hps.2.2.2 hle
      show paginate store f limit (fuel + 1) c = q
      unfold paginate
      rw [hnc]
      exact hitems

/-- C1: iterating the endpoint over a fixed store, seeding each request
with the previous `nextCursor` and starting with none, concatenates to the
single unlimited query (same order), visits each matching record exactly
once (it is a duplicate-free permutation of the matching records), given
unique store identities and a positive limit. -/
theorem c1_pagination (store : List Doc) (f : BaseFilter) (limit : Nat)
    (hids : (store.map Doc._id).Nodup) (hlim : 1 ≤ limit) :
    paginateAll store f limit = queryDocs store ⟨f, none⟩ ∧
    List.Perm (paginateAll store f limit) (store.filter (matchesFilter ⟨f, none⟩)) ∧
    (paginateAll store f limit).Nodup := by
  have hfilter_true : (baseSorted store f).filter (afterCursor none) = baseSorted store f :=
    List.filter_eq_self.mpr (fun x _ => rfl)
  have hlen : ((baseSorted store f).filter (afterCursor none)).length < store.length + 1 := by
    rw [hfilter_true]
    have h1 : (baseSorted store f).length ≤ (sortDocs store).length :=
      List.length_filter_le _ _
    have h2 : (sortDocs store).length = store.length := List.length_insertionSort _ _
    omega
  have hmain : paginateAll store f limit = (baseSorted store f).filter (afterCursor none) :=
    paginate_eq_filter store f limit hlim hids (store.length + 1) none hlen
  have heq : paginateAll store f limit = queryDocs store ⟨f, none⟩ := by
    rw [hmain, ← queryDocs_split]
  have hperm : List.Perm (paginateAll store f limit)
      (store.filter (matchesFilter ⟨f, none⟩)) := by
    rw [heq]
    unfold queryDocs
    exact List.Perm.filter _ (List.perm_insertionSort sortRel store)
  have hnodup : (paginateAll store f limit).Nodup := by
    rw [heq]
    unfold queryDocs
    apply List.Nodup.sublist (List.filter_sublist _)
    exact (List.Perm.nodup_iff (List.perm_insertionSort sortRel store)).mpr
      (List.Nodup.of_map Doc._id hids)
  exact ⟨heq, hperm, hnodup⟩

/-- C1 witness: the cursor walk over the demo store with limit 1 (three
pages of one matching document each). -/
theorem c1_witness :
    paginateAll demoStore demoFilter 1 = queryDocs demoStore ⟨demoFilter, none⟩ ∧
    List.Perm (paginateAll demoStore demoFilter 1)
      (demoStore.filter (matchesFilter ⟨demoFilter, none⟩)) ∧
    (paginateAll demoStore demoFilter 1).Nodup :=
  c1_pagination demoStore demoFilter 1 (by decide) (by decide)

end CloudNode
